import Mathlib

/-!
cictechInventory: key derivation and the inventory store service.

A shallow embedding of `src/server.js` and `src/models/productModel.js`.

* The collection is a `List Product` in the store's natural (insertion) order; a
  handler is a function from the collection and the request to the response and the
  collection afterwards. `findOne` / `findById` return the first match.
* A request body field is a `JsValue`: absent (`undefined`), JSON `null`, or a
  string (for `purchaseDate`, a date). Bodies with other JSON values in these fields
  and identifiers that are not well-formed are not covered.
* `String.prototype.toLowerCase` is a parameter `toLowerCase : String → String` of
  the key derivation, so that general statements hold for the full Unicode mapping;
  `asciiToLowerCase` is the instance used for evaluation on ASCII inputs, where the
  two agree.
* The schema option `timestamps: true` is modelled: a handler is served at a time
  `now`, a stored document gets `createdAt = updatedAt = now`, and every update
  (`updateMany`, `findByIdAndUpdate`) sets `updatedAt = now` on the documents it
  writes. `purchaseDate` is carried as its cast value.
* A handler that throws is caught by its `catch` block: the response is the 500 (or
  400) of that block and the collection is left as it was.
* The unique index on `serial` is not modelled: in a sequential run the handlers'
  own serial checks come first.
-/

namespace CictechInventory

/-! ## JavaScript values and strings -/

/-- A value of a request body field: missing, JSON `null`, or a value of type `α`. -/
inductive JsValue (α : Type) where
  | undefined
  | null
  | val (a : α)
  deriving DecidableEq

/-- JavaScript truthiness of a string-valued field: only a non-empty string is truthy. -/
def JsValue.truthy : JsValue String → Bool
  | .val s => decide (s ≠ "")
  | _ => false

/-- The string carried by a field (the empty string when there is none). -/
def JsValue.toStr : JsValue String → String
  | .val s => s
  | _ => ""

/-- The expression `v || null` for a string-valued field, as a nullable string. -/
def JsValue.orNull (v : JsValue String) : Option String :=
  if v.truthy then some v.toStr else none

/-- The expression `v || d` for a string-valued field and a string `d`. -/
def JsValue.orDefault (v : JsValue String) (d : String) : String :=
  if v.truthy then v.toStr else d

/-- The expression `v || null` for a date-valued field (a date object is truthy). -/
def JsValue.dateOrNull : JsValue Nat → Option Nat
  | .val d => some d
  | _ => none

/-- The characters matched by `\s` in a JavaScript regular expression, which are
also the characters removed by `String.prototype.trim`. -/
def isWhiteSpace (c : Char) : Bool :=
  let n := c.toNat
  n == 0x09 || n == 0x0A || n == 0x0B || n == 0x0C || n == 0x0D || n == 0x20 ||
  n == 0xA0 || n == 0x1680 || (0x2000 ≤ n && n ≤ 0x200A) || n == 0x2028 ||
  n == 0x2029 || n == 0x202F || n == 0x205F || n == 0x3000 || n == 0xFEFF

/-- The call `str.replace(/\s+/g, '')`: every run of whitespace is deleted. -/
def removeWhiteSpace (s : String) : String :=
  ⟨s.data.filter (fun c => !isWhiteSpace c)⟩

/-- The call `str.trim()`: leading and trailing whitespace is dropped. -/
def trim (s : String) : String :=
  ⟨((s.data.dropWhile isWhiteSpace).reverse.dropWhile isWhiteSpace).reverse⟩

/-- Lower-casing of the ASCII letters; on ASCII strings this is `toLowerCase`. -/
def asciiToLowerCase (s : String) : String :=
  ⟨s.data.map Char.toLower⟩

/-- The exception a handler can run into. -/
inductive JsError where
  | typeError
  | validationError
  deriving DecidableEq

/-! ## Key derivation (`server.js`, lines 29-41) -/

/-- The function `normalize(str)`: `str.toLowerCase().replace(/\s+/g, '').trim()`.
Calling `.toLowerCase()` on `undefined` or `null` throws a `TypeError`. -/
def normalize (toLowerCase : String → String) : JsValue String → Except JsError String
  | .val str => .ok (trim (removeWhiteSpace (toLowerCase str)))
  | _ => .error .typeError

/-- The fields the handlers copy from `req.body`, plus `imageUrl`. -/
structure Body where
  serial : JsValue String := .undefined
  brand : JsValue String := .undefined
  model : JsValue String := .undefined
  processor : JsValue String := .undefined
  ram : JsValue String := .undefined
  storage : JsValue String := .undefined
  purchaseDate : JsValue Nat := .undefined
  status : JsValue String := .undefined
  imageUrl : JsValue String := .undefined
  deriving DecidableEq

/-- The function `generateModelKey(laptop)`: the five normalised attributes joined
by `"-"`, in the order brand, model, processor, ram, storage. -/
def generateModelKey (toLowerCase : String → String) (laptop : Body) :
    Except JsError String := do
  let b ← normalize toLowerCase laptop.brand
  let m ← normalize toLowerCase laptop.model
  let p ← normalize toLowerCase laptop.processor
  let r ← normalize toLowerCase laptop.ram
  let s ← normalize toLowerCase laptop.storage
  pure (String.intercalate "-" [b, m, p, r, s])

/-! ## The collection (`models/productModel.js`) -/

/-- A stored document of the `Product` model. `storage`, `purchaseDate` and
`imageUrl` are nullable; `_id` is the identifier the store assigns; `createdAt` and
`updatedAt` are the timestamps of the schema option `timestamps: true`. -/
structure Product where
  _id : Nat
  serial : String
  brand : String
  model : String
  processor : String
  ram : String
  storage : Option String
  purchaseDate : Option Nat
  status : String
  modelKey : String
  imageUrl : Option String
  createdAt : Nat
  updatedAt : Nat
  deriving DecidableEq

/-- The `enum` of the `status` path. -/
def statusEnum : List String := ["Available", "Sold"]

/-- An identifier that no document of the collection carries. -/
def nextId (docs : List Product) : Nat :=
  docs.foldr (fun p n => max (p._id + 1) n) 0

/-- The JSON body of a response. The `error` detail of a 500 response is kept as
the kind of exception; the `errors` array of a validation failure is left out. -/
inductive ResBody where
  | product (p : Product)
  | products (ps : List Product)
  | message (m : String)
  | failure (m : String) (error : JsError)
  | deleted (m : String) (deletedProduct : Product)
  deriving DecidableEq

/-- An HTTP response: status code and JSON body. -/
structure Response where
  status : Nat
  body : ResBody
  deriving DecidableEq

/-- The message of the required-fields check of `POST /products`. -/
def missingFieldsMessage : String :=
  "Missing required fields. Please provide: serial, brand, model, processor, ram, storage, purchaseDate"

/-- The message of the serial check of `POST /products`. -/
def duplicateSerialMessage : String :=
  "A laptop with this serial number already exists"

/-- The message of the serial check of `PUT /products/:id`. -/
def anotherSerialMessage : String :=
  "Another laptop with this serial number already exists"

/-- The message of a 404 response. -/
def notFoundMessage (id : Nat) : String :=
  "Cannot find laptop with ID " ++ toString id

/-! ## `POST /products` (`server.js`, lines 45-100) -/

/-- The handler of `POST /products`, served at time `now`: response and collection
afterwards. A stored document gets `createdAt` and `updatedAt` set to `now`. -/
def createProduct (toLowerCase : String → String) (now : Nat) (docs : List Product)
    (body : Body) :
    Response × List Product :=
  match generateModelKey toLowerCase body with
  | .error e => (⟨500, .failure "Server error" e⟩, docs)
  | .ok modelKey =>
    let existingModel := docs.find? (fun p => p.modelKey == modelKey)
    let imageUrl :=
      match existingModel with
      | some e => e.imageUrl
      | none => body.imageUrl.orNull
    if !body.serial.truthy || !body.brand.truthy || !body.model.truthy ||
        !body.processor.truthy || !body.ram.truthy || !body.storage.truthy then
      (⟨400, .message missingFieldsMessage⟩, docs)
    else if docs.any (fun p => p.serial == body.serial.toStr) then
      (⟨400, .message duplicateSerialMessage⟩, docs)
    else
      let status := body.status.orDefault "Available"
      if status ∈ statusEnum then
        let product : Product :=
          { _id := nextId docs
            serial := body.serial.toStr
            brand := body.brand.toStr
            model := body.model.toStr
            processor := body.processor.toStr
            ram := body.ram.toStr
            storage := some body.storage.toStr
            purchaseDate := body.purchaseDate.dateOrNull
            status := status
            modelKey := modelKey
            imageUrl := imageUrl
            createdAt := now
            updatedAt := now }
        (⟨201, .product product⟩, docs ++ [product])
      else
        (⟨500, .failure "Server error" .validationError⟩, docs)

/-! ## `PUT /products/:id` (`server.js`, lines 103-181) -/

/-- The update validator of a required `String` path: a path that the update does
not set is not validated; `null` and the empty string are rejected. -/
def requiredOk : JsValue String → Bool
  | .undefined => true
  | .null => false
  | .val s => decide (s ≠ "")

/-- The update validators of the `status` path: required, and in the `enum`. -/
def statusOk : JsValue String → Bool
  | .undefined => true
  | .null => false
  | .val s => decide (s ∈ statusEnum)

/-- The validators that `runValidators: true` runs on the update document. -/
def validatorsOk (body : Body) : Bool :=
  requiredOk body.serial && requiredOk body.brand && requiredOk body.model &&
  requiredOk body.processor && requiredOk body.ram && statusOk body.status

/-- A required string path after the update: set when the update defines it. -/
def setString (v : JsValue String) (old : String) : String :=
  match v with
  | .val s => s
  | _ => old

/-- A nullable path after the update: kept when the update leaves it undefined. -/
def setNullable {α : Type} (v : JsValue α) (old : Option α) : Option α :=
  match v with
  | .undefined => old
  | .null => none
  | .val a => some a

/-- The update document `laptopData` (with its undefined fields removed) applied to
a stored document at time `now`. It never holds `modelKey`, and holds no `imageUrl`
on the path that reaches `findByIdAndUpdate`; the schema's timestamps add
`updatedAt` to the update. -/
def applyUpdate (body : Body) (now : Nat) (p : Product) : Product :=
  { p with
    updatedAt := now
    serial := setString body.serial p.serial
    brand := setString body.brand p.brand
    model := setString body.model p.model
    processor := setString body.processor p.processor
    ram := setString body.ram p.ram
    storage := setNullable body.storage p.storage
    purchaseDate := setNullable body.purchaseDate p.purchaseDate
    status := setString body.status p.status }

/-- The store call `findByIdAndUpdate`: the first document with the identifier is
replaced by its image under `f`. -/
def updateFirst (f : Product → Product) (id : Nat) : List Product → List Product
  | [] => []
  | p :: ps => if p._id == id then f p :: ps else p :: updateFirst f id ps

/-- The store call `updateMany({ modelKey }, { $set: { imageUrl } })` at time `now`:
on a schema with `timestamps: true` the update also sets `updatedAt` on every
matched document. -/
def setGroupImage (modelKey : String) (imageUrl : String) (now : Nat) (docs : List Product) :
    List Product :=
  docs.map (fun p =>
    if p.modelKey == modelKey then { p with imageUrl := some imageUrl, updatedAt := now }
    else p)

/-- The handler of `PUT /products/:id`, served at time `now`: response and
collection afterwards. -/
def updateProduct (now : Nat) (docs : List Product) (id : Nat) (body : Body) :
    Response × List Product :=
  match docs.find? (fun p => p._id == id) with
  | none => (⟨404, .message (notFoundMessage id)⟩, docs)
  | some product =>
    if body.imageUrl.truthy then
      let docs' := setGroupImage product.modelKey body.imageUrl.toStr now docs
      (⟨200, .products (docs'.filter (fun p => p.modelKey == product.modelKey))⟩, docs')
    else if body.serial.truthy && body.serial.toStr != product.serial &&
        docs.any (fun p => p.serial == body.serial.toStr && p._id != id) then
      (⟨400, .message anotherSerialMessage⟩, docs)
    else if validatorsOk body then
      (⟨200, .product (applyUpdate body now product)⟩,
        updateFirst (applyUpdate body now) id docs)
    else
      (⟨400, .message "Validation error"⟩, docs)

/-! ## `GET /products/unique` and `DELETE /products/:id` -/

/-- One document met by the `$group` stage: it opens a group, with itself as
`$first`, when its `modelKey` has not been seen, and is dropped otherwise. -/
def groupAcc (acc : List Product) (p : Product) : List Product :=
  if acc.any (fun q => q.modelKey == p.modelKey) then acc else acc ++ [p]

/-- The aggregation stage `$group` by `modelKey` with `$first: "$$ROOT"`, followed
by `$replaceRoot`: the documents are scanned in the collection's order. -/
def groupFirst (docs : List Product) : List Product :=
  docs.foldl groupAcc []

/-- The handler of `GET /products/unique`. -/
def uniqueProducts (docs : List Product) : Response :=
  ⟨200, .products (groupFirst docs)⟩

/-- The handler of `DELETE /products/:id`: response and collection afterwards. -/
def deleteProduct (docs : List Product) (id : Nat) : Response × List Product :=
  match docs.find? (fun p => p._id == id) with
  | none => (⟨404, .message (notFoundMessage id)⟩, docs)
  | some product =>
    (⟨200, .deleted "Laptop deleted successfully" product⟩,
      docs.eraseP (fun p => p._id == id))

/-! ## Sequential runs -/

/-- A request that can change the collection. -/
inductive Op where
  | create (body : Body)
  | update (id : Nat) (body : Body)
  | delete (id : Nat)
  deriving DecidableEq

/-- One request served against the collection at time `now`. -/
def step (toLowerCase : String → String) (now : Nat) (docs : List Product) :
    Op → Response × List Product
  | .create body => createProduct toLowerCase now docs body
  | .update id body => updateProduct now docs id body
  | .delete id => deleteProduct docs id

/-- The collection after a sequence of requests, each with the time at which it is
served, one after the other. -/
def run (toLowerCase : String → String) (docs : List Product) (ops : List (Nat × Op)) :
    List Product :=
  ops.foldl (fun d op => (step toLowerCase op.1 d op.2).2) docs

/-- No two documents share a serial. -/
def SerialsUnique (docs : List Product) : Prop :=
  (docs.map (fun p => p.serial)).Nodup

/-- No two documents share an identifier (the store's primary key). -/
def IdsUnique (docs : List Product) : Prop :=
  (docs.map (fun p => p._id)).Nodup

/-- Any two documents with the same `modelKey` have the same `imageUrl`. -/
def GroupImageConsistent (docs : List Product) : Prop :=
  ∀ p ∈ docs, ∀ q ∈ docs, p.modelKey = q.modelKey → p.imageUrl = q.imageUrl

/-! ## Lemmas on key derivation -/

theorem dropWhile_of_forall_false {α : Type} (f : α → Bool) (l : List α)
    (h : ∀ a ∈ l, f a = false) : l.dropWhile f = l := by
  cases l with
  | nil => rfl
  | cons a as => simp [List.dropWhile, h a (List.mem_cons_self a as)]

theorem trim_removeWhiteSpace (s : String) :
    trim (removeWhiteSpace s) = removeWhiteSpace s := by
  have h : ∀ c ∈ s.data.filter (fun c => !isWhiteSpace c), isWhiteSpace c = false := by
    intro c hc
    simpa using (List.mem_filter.mp hc).2
  have h' : ∀ c ∈ (s.data.filter (fun c => !isWhiteSpace c)).reverse,
      isWhiteSpace c = false := fun c hc => h c (List.mem_reverse.mp hc)
  simp only [trim, removeWhiteSpace]
  rw [dropWhile_of_forall_false _ _ h, dropWhile_of_forall_false _ _ h', List.reverse_reverse]

theorem generateModelKey_val (toLowerCase : String → String) (x : Body)
    (b m p r s : String) :
    generateModelKey toLowerCase
      { x with brand := .val b, model := .val m, processor := .val p, ram := .val r,
               storage := .val s } =
      .ok (removeWhiteSpace (toLowerCase b) ++ "-" ++ removeWhiteSpace (toLowerCase m) ++ "-" ++
        removeWhiteSpace (toLowerCase p) ++ "-" ++ removeWhiteSpace (toLowerCase r) ++ "-" ++
        removeWhiteSpace (toLowerCase s)) := by
  simp only [generateModelKey, normalize, trim_removeWhiteSpace]
  rfl

/-! ## Lemmas on the store calls -/

theorem updateFirst_of_find (f : Product → Product) (id : Nat) (docs : List Product)
    (target : Product) (h : docs.find? (fun p => p._id == id) = some target) :
    ∃ pre post, docs = pre ++ target :: post ∧ (∀ q ∈ pre, q._id ≠ id) ∧
      target._id = id ∧ updateFirst f id docs = pre ++ f target :: post := by
  induction docs with
  | nil => simp at h
  | cons p ps ih =>
    by_cases hp : p._id = id
    · have ht : p = target := by simpa [List.find?_cons, hp] using h
      subst ht
      exact ⟨[], ps, rfl, by simp, hp, by simp [updateFirst, hp]⟩
    · have h' : ps.find? (fun p => p._id == id) = some target := by
        simpa [List.find?_cons, hp] using h
      obtain ⟨pre, post, hd, hpre, hid, hu⟩ := ih h'
      refine ⟨p :: pre, post, by simp [hd], ?_, hid, by simp [updateFirst, hp, hu]⟩
      intro q hq
      rcases List.mem_cons.mp hq with rfl | hq
      · exact hp
      · exact hpre q hq

theorem groupFirst_eq (docs : List Product) : groupFirst docs = docs.foldl groupAcc [] := rfl

theorem any_modelKey_iff (acc : List Product) (k : String) :
    acc.any (fun q => q.modelKey == k) = true ↔ k ∈ acc.map (fun q => q.modelKey) := by
  simp only [List.any_eq_true, List.mem_map, beq_iff_eq]

theorem foldl_groupAcc_nodup (docs acc : List Product)
    (h : (acc.map (fun q => q.modelKey)).Nodup) :
    ((docs.foldl groupAcc acc).map (fun q => q.modelKey)).Nodup := by
  induction docs generalizing acc with
  | nil => simpa using h
  | cons p ps ih =>
    simp only [List.foldl_cons]
    apply ih
    unfold groupAcc
    by_cases hp : acc.any (fun q => q.modelKey == p.modelKey) = true
    · simpa [hp] using h
    · have hn : p.modelKey ∉ acc.map (fun q => q.modelKey) :=
        fun hm => hp ((any_modelKey_iff acc p.modelKey).mpr hm)
      rw [if_neg hp, List.map_append, List.nodup_append]
      refine ⟨h, by simp, ?_⟩
      intro a ha hb
      simp only [List.map_cons, List.map_nil, List.mem_singleton] at hb
      exact hn (hb ▸ ha)

theorem foldl_groupAcc_keys (docs acc : List Product) (k : String)
    (h : k ∈ (acc ++ docs).map (fun q => q.modelKey)) :
    k ∈ (docs.foldl groupAcc acc).map (fun q => q.modelKey) := by
  induction docs generalizing acc with
  | nil => simpa using h
  | cons p ps ih =>
    simp only [List.foldl_cons]
    apply ih
    unfold groupAcc
    by_cases hp : acc.any (fun q => q.modelKey == p.modelKey) = true
    · rw [if_pos hp]
      have hm := (any_modelKey_iff acc p.modelKey).mp hp
      simp only [List.map_append, List.mem_append, List.map_cons, List.mem_cons] at h ⊢
      rcases h with h | h | h
      · exact Or.inl h
      · exact Or.inl (h ▸ hm)
      · exact Or.inr h
    · rw [if_neg hp]
      simpa [List.append_assoc] using h

theorem foldl_groupAcc_first (docs acc : List Product) (r : Product)
    (h : r ∈ docs.foldl groupAcc acc) :
    r ∈ acc ∨ (r.modelKey ∉ acc.map (fun q => q.modelKey) ∧
      docs.find? (fun q => q.modelKey == r.modelKey) = some r) := by
  induction docs generalizing acc with
  | nil => exact Or.inl (by simpa using h)
  | cons p ps ih =>
    simp only [List.foldl_cons] at h
    by_cases hp : acc.any (fun q => q.modelKey == p.modelKey) = true
    · have hm := (any_modelKey_iff acc p.modelKey).mp hp
      rw [show groupAcc acc p = acc by simp [groupAcc, hp]] at h
      rcases ih acc h with h1 | ⟨h1, h2⟩
      · exact Or.inl h1
      · refine Or.inr ⟨h1, ?_⟩
        have hne : p.modelKey ≠ r.modelKey := fun e => h1 (e ▸ hm)
        simpa [List.find?_cons, hne] using h2
    · have hn : p.modelKey ∉ acc.map (fun q => q.modelKey) :=
        fun hm => hp ((any_modelKey_iff acc p.modelKey).mpr hm)
      rw [show groupAcc acc p = acc ++ [p] by simp [groupAcc, hp]] at h
      rcases ih (acc ++ [p]) h with h1 | ⟨h1, h2⟩
      · rcases List.mem_append.mp h1 with h1 | h1
        · exact Or.inl h1
        · have hr : r = p := by simpa using h1
          subst hr
          exact Or.inr ⟨hn, by simp [List.find?_cons]⟩
      · simp only [List.map_append, List.mem_append, List.map_cons, List.map_nil,
          List.mem_singleton, not_or] at h1
        refine Or.inr ⟨h1.1, ?_⟩
        have hne : p.modelKey ≠ r.modelKey := fun e => h1.2 e.symm
        simpa [List.find?_cons, hne] using h2

/-- The outcome of `POST /products`: either nothing is stored and the status is not
201, or the answer is 201 with the stored document, appended to the collection. -/
theorem createProduct_cases (toLowerCase : String → String) (now : Nat) (docs : List Product)
    (body : Body) :
    ((createProduct toLowerCase now docs body).2 = docs ∧
      (createProduct toLowerCase now docs body).1.status ≠ 201) ∨
    ∃ key p, generateModelKey toLowerCase body = .ok key ∧
      createProduct toLowerCase now docs body = (⟨201, .product p⟩, docs ++ [p]) ∧
      p.modelKey = key ∧ p.serial = body.serial.toStr ∧
      docs.any (fun q => q.serial == body.serial.toStr) = false ∧
      body.storage.truthy = true ∧
      p.imageUrl =
        (match docs.find? (fun q => q.modelKey == key) with
          | some e => e.imageUrl
          | none => body.imageUrl.orNull) := by
  unfold createProduct
  cases hk : generateModelKey toLowerCase body with
  | error e => exact Or.inl ⟨rfl, by simp⟩
  | ok key =>
    simp only []
    by_cases h1 : (!body.serial.truthy || !body.brand.truthy || !body.model.truthy ||
        !body.processor.truthy || !body.ram.truthy || !body.storage.truthy) = true
    · rw [if_pos h1]
      exact Or.inl ⟨rfl, by simp⟩
    · rw [if_neg h1]
      by_cases h2 : docs.any (fun p => p.serial == body.serial.toStr) = true
      · rw [if_pos h2]
        exact Or.inl ⟨rfl, by simp⟩
      · rw [if_neg h2]
        by_cases h3 : body.status.orDefault "Available" ∈ statusEnum
        · rw [if_pos h3]
          refine Or.inr ⟨key, _, rfl, rfl, rfl, rfl, by simpa using h2, ?_, rfl⟩
          simp only [Bool.or_eq_true, Bool.not_eq_true', not_or, Bool.not_eq_false] at h1
          exact h1.2
        · rw [if_neg h3]
          exact Or.inl ⟨rfl, by simp⟩

theorem truthy_val (v : JsValue String) (h : v.truthy = true) :
    ∃ s, v = .val s ∧ s ≠ "" := by
  cases v with
  | undefined => simp [JsValue.truthy] at h
  | null => simp [JsValue.truthy] at h
  | val s => exact ⟨s, rfl, by simpa [JsValue.truthy] using h⟩

theorem generateModelKey_of_truthy (toLowerCase : String → String) (body : Body)
    (hb : body.brand.truthy = true) (hm : body.model.truthy = true)
    (hp : body.processor.truthy = true) (hr : body.ram.truthy = true)
    (hs : body.storage.truthy = true) :
    ∃ key, generateModelKey toLowerCase body = .ok key := by
  obtain ⟨b, hb, _⟩ := truthy_val _ hb
  obtain ⟨m, hm, _⟩ := truthy_val _ hm
  obtain ⟨p, hp, _⟩ := truthy_val _ hp
  obtain ⟨r, hr, _⟩ := truthy_val _ hr
  obtain ⟨s, hs, _⟩ := truthy_val _ hs
  exact ⟨_, by simp only [generateModelKey, normalize, hb, hm, hp, hr, hs]; rfl⟩

theorem string_append_left_cancel (a x y : String) (h : a ++ x = a ++ y) : x = y := by
  have h' := congrArg String.data h
  simp only [String.data_append, List.append_cancel_left_eq] at h'
  exact String.ext h'

theorem mem_updateFirst (f : Product → Product) (id : Nat) (docs : List Product)
    (p' : Product) (h : p' ∈ updateFirst f id docs) :
    p' ∈ docs ∨ ∃ p ∈ docs, p._id = id ∧ p' = f p := by
  induction docs with
  | nil => simp [updateFirst] at h
  | cons p ps ih =>
    by_cases hp : p._id = id
    · simp only [updateFirst, hp, beq_self_eq_true, if_true, List.mem_cons] at h
      rcases h with h | h
      · exact Or.inr ⟨p, List.mem_cons_self p ps, hp, h⟩
      · exact Or.inl (List.mem_cons_of_mem p h)
    · have hb : (p._id == id) = false := by simpa using hp
      simp only [updateFirst, hb, Bool.false_eq_true, if_false, List.mem_cons] at h
      rcases h with h | h
      · exact Or.inl (h ▸ List.mem_cons_self p ps)
      · rcases ih h with h | ⟨q, hq, hqid, hqf⟩
        · exact Or.inl (List.mem_cons_of_mem p h)
        · exact Or.inr ⟨q, List.mem_cons_of_mem p hq, hqid, hqf⟩

/-- The outcome of `PUT /products/:id` on the collection: it is left as it was, or
the image of a group is set, or the first document with the identifier is updated
after the serial check and the validators have passed. -/
theorem updateProduct_cases (now : Nat) (docs : List Product) (id : Nat) (body : Body) :
    (updateProduct now docs id body).2 = docs ∨
    (∃ product : Product, (updateProduct now docs id body).2 =
      setGroupImage product.modelKey body.imageUrl.toStr now docs) ∨
    (∃ product : Product, docs.find? (fun p => p._id == id) = some product ∧
      (body.serial.truthy && body.serial.toStr != product.serial &&
        docs.any (fun p => p.serial == body.serial.toStr && p._id != id)) = false ∧
      validatorsOk body = true ∧
      (updateProduct now docs id body).2 = updateFirst (applyUpdate body now) id docs) := by
  unfold updateProduct
  cases hf : docs.find? (fun p => p._id == id) with
  | none => exact Or.inl rfl
  | some product =>
    simp only []
    by_cases h0 : body.imageUrl.truthy = true
    · rw [if_pos h0]
      exact Or.inr (Or.inl ⟨product, rfl⟩)
    · rw [if_neg h0]
      by_cases h1 : (body.serial.truthy && body.serial.toStr != product.serial &&
          docs.any (fun p => p.serial == body.serial.toStr && p._id != id)) = true
      · rw [if_pos h1]
        exact Or.inl rfl
      · rw [if_neg h1]
        by_cases h2 : validatorsOk body = true
        · rw [if_pos h2]
          exact Or.inr (Or.inr ⟨product, rfl, by simpa using h1, h2, rfl⟩)
        · rw [if_neg h2]
          exact Or.inl rfl

theorem deleteProduct_cases (docs : List Product) (id : Nat) :
    (deleteProduct docs id).2 = docs ∨
    (deleteProduct docs id).2 = docs.eraseP (fun p => p._id == id) := by
  unfold deleteProduct
  cases docs.find? (fun p => p._id == id) with
  | none => exact Or.inl rfl
  | some product => exact Or.inr rfl

/-! ## Group image consistency is preserved -/

theorem find_image_agrees (docs : List Product) (key : String) (x img : Option String)
    (hc : GroupImageConsistent docs)
    (himg : img = (match docs.find? (fun q => q.modelKey == key) with
      | some e => e.imageUrl
      | none => x)) :
    ∀ a ∈ docs, a.modelKey = key → a.imageUrl = img := by
  intro a ha hak
  cases hf : docs.find? (fun q => q.modelKey == key) with
  | none =>
    have := List.find?_eq_none.mp hf a ha
    simp [hak] at this
  | some e =>
    rw [hf] at himg
    have hk : e.modelKey = key := by simpa using List.find?_some hf
    rw [himg]
    exact hc a ha e (List.mem_of_find?_eq_some hf) (hak.trans hk.symm)

theorem createProduct_consistent (toLowerCase : String → String) (now : Nat) (docs : List Product)
    (body : Body) (hc : GroupImageConsistent docs) :
    GroupImageConsistent (createProduct toLowerCase now docs body).2 := by
  rcases createProduct_cases toLowerCase now docs body with ⟨h, _⟩ | ⟨key, p, _, h, hkey, _, _, _, himg⟩
  · rw [h]
    exact hc
  · rw [h]
    have hag := find_image_agrees docs key _ _ hc himg
    intro a ha b hb hab
    simp only [List.mem_append, List.mem_singleton] at ha hb
    rcases ha with ha | rfl <;> rcases hb with hb | rfl
    · exact hc a ha b hb hab
    · exact hag a ha (hab.trans hkey)
    · exact (hag b hb (hab.symm.trans hkey)).symm
    · rfl

theorem setGroupImage_consistent (key v : String) (now : Nat) (docs : List Product)
    (hc : GroupImageConsistent docs) :
    GroupImageConsistent (setGroupImage key v now docs) := by
  intro a' ha b' hb hab
  simp only [setGroupImage, List.mem_map] at ha hb
  obtain ⟨a, ha, rfl⟩ := ha
  obtain ⟨b, hb, rfl⟩ := hb
  have hk : ∀ x : Product,
      (if (x.modelKey == key) = true then { x with imageUrl := some v, updatedAt := now }
        else x).modelKey = x.modelKey := by
    intro x
    by_cases hx : x.modelKey = key <;> simp [hx]
  rw [hk a, hk b] at hab
  by_cases hak : a.modelKey = key
  · have hbk : b.modelKey = key := hab ▸ hak
    simp [hak, hbk]
  · have hbk : ¬ b.modelKey = key := fun h => hak (hab.trans h)
    simp only [beq_iff_eq, hak, hbk, if_false]
    exact hc a ha b hb hab

theorem updateFirst_consistent (body : Body) (now id : Nat) (docs : List Product)
    (hc : GroupImageConsistent docs) :
    GroupImageConsistent (updateFirst (applyUpdate body now) id docs) := by
  have key : ∀ p' ∈ updateFirst (applyUpdate body now) id docs,
      ∃ p ∈ docs, p'.modelKey = p.modelKey ∧ p'.imageUrl = p.imageUrl := by
    intro p' hp'
    rcases mem_updateFirst _ _ _ _ hp' with h | ⟨p, hp, _, rfl⟩
    · exact ⟨p', h, rfl, rfl⟩
    · exact ⟨p, hp, rfl, rfl⟩
  intro a' ha b' hb hab
  obtain ⟨a, ha, hak, hai⟩ := key a' ha
  obtain ⟨b, hb, hbk, hbi⟩ := key b' hb
  rw [hai, hbi]
  exact hc a ha b hb (by rw [← hak, ← hbk, hab])

theorem updateProduct_consistent (now : Nat) (docs : List Product) (id : Nat) (body : Body)
    (hc : GroupImageConsistent docs) : GroupImageConsistent (updateProduct now docs id body).2 := by
  rcases updateProduct_cases now docs id body with h | ⟨product, h⟩ | ⟨product, _, _, _, h⟩
  · rw [h]
    exact hc
  · rw [h]
    exact setGroupImage_consistent _ _ _ _ hc
  · rw [h]
    exact updateFirst_consistent _ _ _ _ hc

theorem deleteProduct_consistent (docs : List Product) (id : Nat)
    (hc : GroupImageConsistent docs) : GroupImageConsistent (deleteProduct docs id).2 := by
  rcases deleteProduct_cases docs id with h | h
  · rw [h]
    exact hc
  · rw [h]
    intro a ha b hb hab
    exact hc a (List.mem_of_mem_eraseP ha) b (List.mem_of_mem_eraseP hb) hab

theorem step_consistent (toLowerCase : String → String) (now : Nat) (docs : List Product) (op : Op)
    (hc : GroupImageConsistent docs) : GroupImageConsistent (step toLowerCase now docs op).2 := by
  cases op with
  | create body => exact createProduct_consistent toLowerCase now docs body hc
  | update id body => exact updateProduct_consistent now docs id body hc
  | delete id => exact deleteProduct_consistent docs id hc

theorem run_consistent (toLowerCase : String → String) (ops : List (Nat × Op))
    (docs : List Product)
    (hc : GroupImageConsistent docs) : GroupImageConsistent (run toLowerCase docs ops) := by
  induction ops generalizing docs with
  | nil => exact hc
  | cons op ops ih =>
    simp only [run, List.foldl_cons]
    exact ih _ (step_consistent toLowerCase op.1 docs op.2 hc)

/-! ## Serial uniqueness is preserved -/

theorem updateFirst_serials_unique (f : Product → Product) (id : Nat) (docs : List Product)
    (hid : IdsUnique docs) (hs : SerialsUnique docs)
    (hf : ∀ p ∈ docs, p._id = id → (f p).serial = p.serial ∨
      ∀ q ∈ docs, q._id ≠ id → q.serial ≠ (f p).serial) :
    SerialsUnique (updateFirst f id docs) := by
  induction docs with
  | nil => simpa [updateFirst] using hs
  | cons p ps ih =>
    unfold IdsUnique at hid
    unfold SerialsUnique at hs ⊢
    rw [List.map_cons, List.nodup_cons] at hid hs
    have hfps : ∀ q ∈ ps, q._id = id → (f q).serial = q.serial ∨
        ∀ q' ∈ ps, q'._id ≠ id → q'.serial ≠ (f q).serial := by
      intro q hq hqid
      rcases hf q (List.mem_cons_of_mem p hq) hqid with h | h
      · exact Or.inl h
      · exact Or.inr (fun q' hq' => h q' (List.mem_cons_of_mem p hq'))
    by_cases hp : p._id = id
    · simp only [updateFirst, hp, beq_self_eq_true, if_true, List.map_cons, List.nodup_cons]
      refine ⟨?_, hs.2⟩
      intro hmem
      obtain ⟨q, hq, hqs⟩ := List.mem_map.mp hmem
      have hqid : q._id ≠ id := by
        intro e
        exact hid.1 (List.mem_map.mpr ⟨q, hq, e.trans hp.symm⟩)
      rcases hf p (List.mem_cons_self p ps) hp with h | h
      · exact hs.1 (List.mem_map.mpr ⟨q, hq, hqs.trans h⟩)
      · exact h q (List.mem_cons_of_mem p hq) hqid hqs
    · have hb : (p._id == id) = false := by simpa using hp
      simp only [updateFirst, hb, Bool.false_eq_true, if_false, List.map_cons, List.nodup_cons]
      refine ⟨?_, ih hid.2 hs.2 hfps⟩
      intro hmem
      obtain ⟨x, hx, hxs⟩ := List.mem_map.mp hmem
      rcases mem_updateFirst f id ps x hx with h | ⟨q, hq, hqid, rfl⟩
      · exact hs.1 (List.mem_map.mpr ⟨x, h, hxs⟩)
      · rcases hf q (List.mem_cons_of_mem p hq) hqid with h | h
        · exact hs.1 (List.mem_map.mpr ⟨q, hq, h.symm.trans hxs⟩)
        · exact h p (List.mem_cons_self p ps) hp hxs.symm

theorem eq_of_find_of_id (docs : List Product) (id : Nat) (product p : Product)
    (hid : IdsUnique docs) (hfind : docs.find? (fun q => q._id == id) = some product)
    (hp : p ∈ docs) (hpid : p._id = id) : p = product := by
  have hm := List.mem_of_find?_eq_some hfind
  have he : product._id = id := by simpa using List.find?_some hfind
  exact List.inj_on_of_nodup_map hid hp hm (hpid.trans he.symm)

theorem createProduct_serials_unique (toLowerCase : String → String) (now : Nat) (docs : List Product)
    (body : Body) (hs : SerialsUnique docs) :
    SerialsUnique (createProduct toLowerCase now docs body).2 := by
  rcases createProduct_cases toLowerCase now docs body with ⟨h, _⟩ | ⟨_, p, _, h, _, hser, hany, _, _⟩
  · rw [h]
    exact hs
  · rw [h]
    unfold SerialsUnique at hs ⊢
    rw [List.map_append, List.nodup_append]
    refine ⟨hs, by simp, ?_⟩
    intro a ha hb
    simp only [List.map_cons, List.map_nil, List.mem_singleton] at hb
    obtain ⟨q, hq, hqs⟩ := List.mem_map.mp ha
    have : docs.any (fun q => q.serial == body.serial.toStr) = true := by
      rw [List.any_eq_true]
      exact ⟨q, hq, by simp [hqs, hb, hser]⟩
    rw [hany] at this
    exact absurd this (by simp)

theorem setGroupImage_serials (key v : String) (now : Nat) (docs : List Product) :
    (setGroupImage key v now docs).map (fun p => p.serial) =
      docs.map (fun p => p.serial) := by
  simp only [setGroupImage, List.map_map]
  apply List.map_congr_left
  intro a _
  by_cases ha : a.modelKey = key <;> simp [ha]

theorem updateProduct_serials_unique (now : Nat) (docs : List Product) (id : Nat) (body : Body)
    (hid : IdsUnique docs) (hs : SerialsUnique docs) :
    SerialsUnique (updateProduct now docs id body).2 := by
  rcases updateProduct_cases now docs id body with h | ⟨product, h⟩ | ⟨product, hfind, hchk, hval, h⟩
  · rw [h]
    exact hs
  · rw [h]
    unfold SerialsUnique
    rw [setGroupImage_serials]
    exact hs
  · rw [h]
    apply updateFirst_serials_unique _ _ _ hid hs
    intro p hp hpid
    have hpe := eq_of_find_of_id docs id product p hid hfind hp hpid
    subst hpe
    cases hse : body.serial with
    | undefined => exact Or.inl (by simp [applyUpdate, setString, hse])
    | null => exact Or.inl (by simp [applyUpdate, setString, hse])
    | val s =>
      have hne : s ≠ "" := by
        simp only [validatorsOk, Bool.and_eq_true, hse, requiredOk, decide_eq_true_eq] at hval
        exact hval.1.1.1.1.1
      by_cases hsame : s = p.serial
      · exact Or.inl (by simp [applyUpdate, setString, hse, hsame])
      · right
        intro q hq hqid hqs
        simp [hse, JsValue.truthy, JsValue.toStr, hne, hsame] at hchk
        exact hqid (hchk q hq (by simpa [applyUpdate, setString, hse] using hqs))

theorem deleteProduct_serials_unique (docs : List Product) (id : Nat)
    (hs : SerialsUnique docs) : SerialsUnique (deleteProduct docs id).2 := by
  rcases deleteProduct_cases docs id with h | h
  · rw [h]
    exact hs
  · rw [h]
    exact List.Nodup.sublist ((List.eraseP_sublist docs).map _) hs

/-! ## Identifiers stay pairwise distinct -/

theorem lt_nextId (docs : List Product) : ∀ p ∈ docs, p._id < nextId docs := by
  induction docs with
  | nil => intro p hp; simp at hp
  | cons q qs ih =>
    intro p hp
    have hn : nextId (q :: qs) = max (q._id + 1) (nextId qs) := rfl
    rw [hn]
    rcases List.mem_cons.mp hp with rfl | hp
    · exact lt_of_lt_of_le (Nat.lt_succ_self _) (le_max_left _ _)
    · exact lt_of_lt_of_le (ih p hp) (le_max_right _ _)

theorem createProduct_ids_unique (toLowerCase : String → String) (now : Nat) (docs : List Product)
    (body : Body) (hid : IdsUnique docs) :
    IdsUnique (createProduct toLowerCase now docs body).2 := by
  have hnew : ∀ p : Product, p._id = nextId docs → IdsUnique (docs ++ [p]) := by
    intro p hp
    unfold IdsUnique at hid ⊢
    rw [List.map_append, List.nodup_append]
    refine ⟨hid, by simp, ?_⟩
    intro a ha hb
    simp only [List.map_cons, List.map_nil, List.mem_singleton] at hb
    obtain ⟨q, hq, hqa⟩ := List.mem_map.mp ha
    have := lt_nextId docs q hq
    omega
  unfold createProduct
  cases generateModelKey toLowerCase body with
  | error e => exact hid
  | ok key =>
    simp only []
    split_ifs
    · exact hid
    · exact hid
    · exact hnew _ rfl
    · exact hid

theorem updateFirst_ids (f : Product → Product) (id : Nat) (docs : List Product)
    (hf : ∀ p, (f p)._id = p._id) :
    (updateFirst f id docs).map (fun p => p._id) = docs.map (fun p => p._id) := by
  induction docs with
  | nil => rfl
  | cons p ps ih =>
    by_cases hp : (p._id == id) = true
    · simp [updateFirst, hp, hf]
    · simp [updateFirst, hp, ih]

theorem setGroupImage_ids (key v : String) (now : Nat) (docs : List Product) :
    (setGroupImage key v now docs).map (fun p => p._id) = docs.map (fun p => p._id) := by
  simp only [setGroupImage, List.map_map]
  apply List.map_congr_left
  intro a _
  by_cases ha : a.modelKey = key <;> simp [ha]

theorem updateProduct_ids_unique (now : Nat) (docs : List Product) (id : Nat) (body : Body)
    (hid : IdsUnique docs) : IdsUnique (updateProduct now docs id body).2 := by
  rcases updateProduct_cases now docs id body with h | ⟨product, h⟩ | ⟨product, _, _, _, h⟩
  · rw [h]
    exact hid
  · rw [h]
    unfold IdsUnique
    rw [setGroupImage_ids]
    exact hid
  · rw [h]
    unfold IdsUnique
    rw [updateFirst_ids (applyUpdate body now) id docs (fun _ => rfl)]
    exact hid

theorem deleteProduct_ids_unique (docs : List Product) (id : Nat)
    (hid : IdsUnique docs) : IdsUnique (deleteProduct docs id).2 := by
  rcases deleteProduct_cases docs id with h | h
  · rw [h]
    exact hid
  · rw [h]
    exact List.Nodup.sublist ((List.eraseP_sublist docs).map _) hid

/-! ## Claims -/

/-- C1. Key derivation is case- and whitespace-insensitive: two attribute tuples whose
components agree after lower-casing and deleting all whitespace get the same key,
which is the five normalised values joined by `"-"` in the order brand, model,
processor, ram, storage; the two tuples of the specification both get
`"hp-elitebook-i7-16gb-512gb"`. -/
theorem generateModelKey_insensitive (toLowerCase : String → String) (x y : Body)
    (b m p r s b' m' p' r' s' : String)
    (hb : removeWhiteSpace (toLowerCase b) = removeWhiteSpace (toLowerCase b'))
    (hm : removeWhiteSpace (toLowerCase m) = removeWhiteSpace (toLowerCase m'))
    (hp : removeWhiteSpace (toLowerCase p) = removeWhiteSpace (toLowerCase p'))
    (hr : removeWhiteSpace (toLowerCase r) = removeWhiteSpace (toLowerCase r'))
    (hs : removeWhiteSpace (toLowerCase s) = removeWhiteSpace (toLowerCase s')) :
    generateModelKey toLowerCase
        { x with brand := .val b, model := .val m, processor := .val p, ram := .val r,
                 storage := .val s } =
      generateModelKey toLowerCase
        { y with brand := .val b', model := .val m', processor := .val p', ram := .val r',
                 storage := .val s' } ∧
    generateModelKey toLowerCase
        { x with brand := .val b, model := .val m, processor := .val p, ram := .val r,
                 storage := .val s } =
      .ok (String.intercalate "-"
        [removeWhiteSpace (toLowerCase b), removeWhiteSpace (toLowerCase m),
         removeWhiteSpace (toLowerCase p), removeWhiteSpace (toLowerCase r),
         removeWhiteSpace (toLowerCase s)]) ∧
    generateModelKey asciiToLowerCase
        { x with brand := .val "HP", model := .val " EliteBook ", processor := .val "i7",
                 ram := .val "16GB", storage := .val "512GB" } =
      .ok "hp-elitebook-i7-16gb-512gb" ∧
    generateModelKey asciiToLowerCase
        { y with brand := .val "hp", model := .val "elitebook", processor := .val "I7",
                 ram := .val "16gb", storage := .val "512gb" } =
      .ok "hp-elitebook-i7-16gb-512gb" := by
  refine ⟨?_, ?_, rfl, rfl⟩
  · rw [generateModelKey_val, generateModelKey_val, hb, hm, hp, hr, hs]
  · rw [generateModelKey_val]
    rfl

/-- Witness for C1: `"Dell "` / `"dEll"` and `"X P S"` / `"xps"` agree after normalisation. -/
theorem generateModelKey_insensitive_witness :
    generateModelKey asciiToLowerCase
        { brand := .val "Dell ", model := .val "X P S", processor := .val "i5",
          ram := .val "8 GB", storage := .val "1TB" } =
      generateModelKey asciiToLowerCase
        { brand := .val "dEll", model := .val "xps", processor := .val "I5",
          ram := .val "8gb", storage := .val " 1tb", serial := .val "S9" } :=
  (generateModelKey_insensitive asciiToLowerCase {} { serial := .val "S9" }
    "Dell " "X P S" "i5" "8 GB" "1TB" "dEll" "xps" "I5" "8gb" " 1tb" rfl rfl rfl rfl rfl).1

/-- C2, as stated, fails: in a collection of two documents of one group and one of
another, served at time 9, the image update of the first document also moves
`updatedAt` of both group members to 9, so the written documents differ from the
old ones in a path other than `imageUrl`. -/
theorem updateProduct_image_branch_sets_updatedAt :
    (updateProduct 9
      [⟨0, "S1", "HP", "X", "i5", "8GB", some "256GB", none, "Available",
        "hp-x-i5-8gb-256gb", none, 1, 1⟩,
       ⟨1, "S2", "HP", "X", "i5", "8GB", some "256GB", none, "Sold",
        "hp-x-i5-8gb-256gb", none, 2, 2⟩,
       ⟨2, "S3", "Dell", "Y", "i7", "16GB", some "1TB", none, "Available",
        "dell-y-i7-16gb-1tb", some "http://img/1", 3, 3⟩] 0
      { imageUrl := .val "http://img/2" }).2 =
      [⟨0, "S1", "HP", "X", "i5", "8GB", some "256GB", none, "Available",
        "hp-x-i5-8gb-256gb", some "http://img/2", 1, 9⟩,
       ⟨1, "S2", "HP", "X", "i5", "8GB", some "256GB", none, "Sold",
        "hp-x-i5-8gb-256gb", some "http://img/2", 2, 9⟩,
       ⟨2, "S3", "Dell", "Y", "i7", "16GB", some "1TB", none, "Available",
        "dell-y-i7-16gb-1tb", some "http://img/1", 3, 3⟩] ∧
    (⟨0, "S1", "HP", "X", "i5", "8GB", some "256GB", none, "Available",
        "hp-x-i5-8gb-256gb", some "http://img/2", 1, 9⟩ : Product) ≠
      { (⟨0, "S1", "HP", "X", "i5", "8GB", some "256GB", none, "Available",
          "hp-x-i5-8gb-256gb", none, 1, 1⟩ : Product) with
        imageUrl := some "http://img/2" } ∧
    (⟨1, "S2", "HP", "X", "i5", "8GB", some "256GB", none, "Sold",
        "hp-x-i5-8gb-256gb", some "http://img/2", 2, 9⟩ : Product) ≠
      { (⟨1, "S2", "HP", "X", "i5", "8GB", some "256GB", none, "Sold",
          "hp-x-i5-8gb-256gb", none, 2, 2⟩ : Product) with
        imageUrl := some "http://img/2" } := by
  decide

/-- C2, amended. An update that carries a non-empty `imageUrl` value `v` for an
existing identifier, served at time `now`, answers 200 with exactly the documents of
the target's group (as they are after the write), sets `imageUrl` to `v` and
`updatedAt` to `now` on every document of that group, leaves every document outside
the group as it was, and changes no path other than `imageUrl` and the store-managed
`updatedAt` on any document, whatever other fields the request carries. -/
theorem updateProduct_image_branch (now : Nat) (docs : List Product) (id : Nat) (body : Body)
    (target : Product) (v : String)
    (hfind : docs.find? (fun p => p._id == id) = some target)
    (himg : body.imageUrl = .val v) (hv : v ≠ "") :
    ∃ docs' group, updateProduct now docs id body = (⟨200, .products group⟩, docs') ∧
      (∀ p ∈ docs', p.modelKey = target.modelKey → p.imageUrl = some v) ∧
      List.Forall₂ (fun old new =>
        (old.modelKey ≠ target.modelKey → new = old) ∧
        (old.modelKey = target.modelKey → new.updatedAt = now) ∧
        new = { old with imageUrl := new.imageUrl, updatedAt := new.updatedAt })
        docs docs' ∧
      group = docs'.filter (fun p => p.modelKey == target.modelKey) ∧
      (∀ p, p ∈ group ↔ p ∈ docs' ∧ p.modelKey = target.modelKey) := by
  have ht : body.imageUrl.truthy = true := by simp [himg, JsValue.truthy, hv]
  refine ⟨setGroupImage target.modelKey v now docs, _, ?_, ?_, ?_, rfl, ?_⟩
  · unfold updateProduct
    rw [hfind]
    simp only []
    rw [if_pos ht, himg]
    rfl
  · intro p hp hk
    simp only [setGroupImage, List.mem_map] at hp
    obtain ⟨q, _, rfl⟩ := hp
    by_cases hq : q.modelKey = target.modelKey
    · simp [hq]
    · simp [hq] at hk
  · unfold setGroupImage
    rw [List.forall₂_map_right_iff, List.forall₂_same]
    intro q _
    by_cases hq : q.modelKey = target.modelKey <;> simp [hq]
  · intro p
    simp [List.mem_filter]

/-- Witness for C2: two documents of one group and one of another; the first is
updated with the image `"http://img/2"` at time 9, together with a brand. -/
theorem updateProduct_image_branch_witness :
    ∃ docs' group,
      updateProduct 9
        [⟨0, "S1", "HP", "X", "i5", "8GB", some "256GB", none, "Available",
          "hp-x-i5-8gb-256gb", none, 1, 1⟩,
         ⟨1, "S2", "HP", "X", "i5", "8GB", some "256GB", none, "Sold",
          "hp-x-i5-8gb-256gb", none, 2, 2⟩,
         ⟨2, "S3", "Dell", "Y", "i7", "16GB", some "1TB", none, "Available",
          "dell-y-i7-16gb-1tb", some "http://img/1", 3, 3⟩] 0
        { imageUrl := .val "http://img/2", brand := .val "Dell" } =
        (⟨200, .products group⟩, docs') ∧
      (∀ p ∈ docs', p.modelKey = "hp-x-i5-8gb-256gb" → p.imageUrl = some "http://img/2") ∧
      group = docs'.filter (fun p => p.modelKey == "hp-x-i5-8gb-256gb") :=
  let ⟨d, g, h1, h2, _, h4, _⟩ :=
    updateProduct_image_branch 9
      [⟨0, "S1", "HP", "X", "i5", "8GB", some "256GB", none, "Available",
        "hp-x-i5-8gb-256gb", none, 1, 1⟩,
       ⟨1, "S2", "HP", "X", "i5", "8GB", some "256GB", none, "Sold",
        "hp-x-i5-8gb-256gb", none, 2, 2⟩,
       ⟨2, "S3", "Dell", "Y", "i7", "16GB", some "1TB", none, "Available",
        "dell-y-i7-16gb-1tb", some "http://img/1", 3, 3⟩] 0
      { imageUrl := .val "http://img/2", brand := .val "Dell" }
      ⟨0, "S1", "HP", "X", "i5", "8GB", some "256GB", none, "Available",
        "hp-x-i5-8gb-256gb", none, 1, 1⟩ "http://img/2" rfl rfl (by decide)
  ⟨d, g, h1, h2, h4⟩

/-- C7. The listing of `GET /products/unique` holds no two documents with the same
`modelKey`, holds every `modelKey` of the collection exactly once, and the document
it holds for a key is the first document with that key in the collection. -/
theorem uniqueProducts_first_per_group (docs : List Product) :
    ∃ result, uniqueProducts docs = ⟨200, .products result⟩ ∧
      (result.map (fun p => p.modelKey)).Nodup ∧
      (∀ p ∈ docs, (result.map (fun q => q.modelKey)).count p.modelKey = 1) ∧
      (∀ r ∈ result, docs.find? (fun q => q.modelKey == r.modelKey) = some r) := by
  have hnd := foldl_groupAcc_nodup docs [] (by simp)
  refine ⟨groupFirst docs, rfl, ?_, ?_, ?_⟩
  · rw [groupFirst_eq]
    exact hnd
  · intro p hp
    rw [groupFirst_eq]
    apply List.count_eq_one_of_mem hnd
    apply foldl_groupAcc_keys
    simp only [List.nil_append, List.mem_map]
    exact ⟨p, hp, rfl⟩
  · intro r hr
    rw [groupFirst_eq] at hr
    rcases foldl_groupAcc_first docs [] r hr with h | ⟨_, h⟩
    · simp at h
    · exact h

/-- C10. An update that carries no (truthy) `imageUrl` and answers 200 replaces the
target by a document in which each of serial, brand, model, processor, ram,
storage, purchaseDate, status is the supplied value when the request defines the
field and the previous value when it leaves it undefined; `modelKey`, `imageUrl`
and `_id` of the target are kept, and every other document stays as it was, in
place. -/
theorem updateProduct_normal_branch (now : Nat) (docs : List Product) (id : Nat) (body : Body)
    (target : Product)
    (hfind : docs.find? (fun p => p._id == id) = some target)
    (himg : body.imageUrl.truthy = false)
    (hok : (updateProduct now docs id body).1.status = 200) :
    ∃ updated pre post,
      updateProduct now docs id body = (⟨200, .product updated⟩, pre ++ updated :: post) ∧
      docs = pre ++ target :: post ∧ (∀ q ∈ pre, q._id ≠ id) ∧
      ((∀ s, body.serial = .val s → updated.serial = s) ∧
        (body.serial = .undefined → updated.serial = target.serial)) ∧
      ((∀ s, body.brand = .val s → updated.brand = s) ∧
        (body.brand = .undefined → updated.brand = target.brand)) ∧
      ((∀ s, body.model = .val s → updated.model = s) ∧
        (body.model = .undefined → updated.model = target.model)) ∧
      ((∀ s, body.processor = .val s → updated.processor = s) ∧
        (body.processor = .undefined → updated.processor = target.processor)) ∧
      ((∀ s, body.ram = .val s → updated.ram = s) ∧
        (body.ram = .undefined → updated.ram = target.ram)) ∧
      ((∀ s, body.storage = .val s → updated.storage = some s) ∧
        (body.storage = .null → updated.storage = none) ∧
        (body.storage = .undefined → updated.storage = target.storage)) ∧
      ((∀ d, body.purchaseDate = .val d → updated.purchaseDate = some d) ∧
        (body.purchaseDate = .null → updated.purchaseDate = none) ∧
        (body.purchaseDate = .undefined → updated.purchaseDate = target.purchaseDate)) ∧
      ((∀ s, body.status = .val s → updated.status = s) ∧
        (body.status = .undefined → updated.status = target.status)) ∧
      updated.modelKey = target.modelKey ∧ updated.imageUrl = target.imageUrl ∧
      updated._id = target._id := by
  obtain ⟨pre, post, hd, hpre, _, hu⟩ := updateFirst_of_find (applyUpdate body now) id docs target hfind
  refine ⟨applyUpdate body now target, pre, post, ?_, hd, hpre, ?_⟩
  · unfold updateProduct at hok ⊢
    rw [hfind] at hok ⊢
    simp only [] at hok ⊢
    rw [if_neg (by simp [himg])] at hok ⊢
    by_cases h1 : (body.serial.truthy && body.serial.toStr != target.serial &&
        docs.any (fun p => p.serial == body.serial.toStr && p._id != id)) = true
    · rw [if_pos h1] at hok
      simp at hok
    · rw [if_neg h1] at hok ⊢
      by_cases h2 : validatorsOk body = true
      · rw [if_pos h2, hu]
      · rw [if_neg h2] at hok
        simp at hok
  · refine ⟨⟨?_, ?_⟩, ⟨?_, ?_⟩, ⟨?_, ?_⟩, ⟨?_, ?_⟩, ⟨?_, ?_⟩, ⟨?_, ?_, ?_⟩, ⟨?_, ?_, ?_⟩,
      ⟨?_, ?_⟩, rfl, rfl, rfl⟩ <;>
    first
      | (intro s h; simp [applyUpdate, setString, setNullable, h])
      | (intro h; simp [applyUpdate, setString, setNullable, h])

/-- Witness for C10: the status of the only document is set to `"Sold"`. -/
theorem updateProduct_normal_branch_witness :
    ∃ updated pre post,
      updateProduct 5
        [⟨0, "S1", "HP", "X", "i5", "8GB", some "256GB", none, "Available",
          "hp-x-i5-8gb-256gb", none, 0, 0⟩] 0 { status := .val "Sold", ram := .val "16GB" } =
        (⟨200, .product updated⟩, pre ++ updated :: post) ∧
      updated.modelKey = "hp-x-i5-8gb-256gb" :=
  let ⟨u, pre, post, h1, _, _, _, _, _, _, _, _, _, _, h2, _⟩ :=
    updateProduct_normal_branch 5
      [⟨0, "S1", "HP", "X", "i5", "8GB", some "256GB", none, "Available",
        "hp-x-i5-8gb-256gb", none, 0, 0⟩] 0 { status := .val "Sold", ram := .val "16GB" }
      ⟨0, "S1", "HP", "X", "i5", "8GB", some "256GB", none, "Available",
        "hp-x-i5-8gb-256gb", none, 0, 0⟩ rfl rfl (by decide)
  ⟨u, pre, post, h1, h2⟩

/-- C3, as stated, fails: on the empty collection a request that supplies the
empty string as `imageUrl` is stored with `imageUrl` null, not with the supplied
value. -/
theorem createProduct_empty_imageUrl_is_null :
    (createProduct asciiToLowerCase 5 []
      { serial := .val "S1", brand := .val "HP", model := .val "X", processor := .val "i5",
        ram := .val "8GB", storage := .val "256GB", imageUrl := .val "" }).1.status = 201 ∧
    (createProduct asciiToLowerCase 5 []
      { serial := .val "S1", brand := .val "HP", model := .val "X", processor := .val "i5",
        ram := .val "8GB", storage := .val "256GB", imageUrl := .val "" }).2.map
        (fun p => p.imageUrl) = [none] ∧
    (createProduct asciiToLowerCase 5 []
      { serial := .val "S1", brand := .val "HP", model := .val "X", processor := .val "i5",
        ram := .val "8GB", storage := .val "256GB", imageUrl := .val "" }).2.map
        (fun p => p.imageUrl) ≠ [some ""] := by
  decide

/-- C3, amended. A create that answers 201 stores one new document under the derived
key. When the collection already holds a document with that key, the new `imageUrl`
is the one of the first such document (of every such document when the group is
consistent), whatever the caller supplied, null included. When it holds none, the
new `imageUrl` is the caller's when that is a non-empty string, and null when the
caller supplied none, `null` or the empty string. -/
theorem createProduct_imageUrl (toLowerCase : String → String) (now : Nat) (docs : List Product)
    (body : Body) (hok : (createProduct toLowerCase now docs body).1.status = 201) :
    ∃ key created, generateModelKey toLowerCase body = .ok key ∧
      createProduct toLowerCase now docs body = (⟨201, .product created⟩, docs ++ [created]) ∧
      created.modelKey = key ∧
      ((∃ e ∈ docs, e.modelKey = key) →
        ∃ e ∈ docs, e.modelKey = key ∧
          docs.find? (fun q => q.modelKey == key) = some e ∧
          created.imageUrl = e.imageUrl) ∧
      (GroupImageConsistent docs →
        ∀ e ∈ docs, e.modelKey = key → created.imageUrl = e.imageUrl) ∧
      ((∀ e ∈ docs, e.modelKey ≠ key) →
        (∀ u, body.imageUrl = .val u → u ≠ "" → created.imageUrl = some u) ∧
        (body.imageUrl = .val "" → created.imageUrl = none) ∧
        (body.imageUrl = .null → created.imageUrl = none) ∧
        (body.imageUrl = .undefined → created.imageUrl = none)) := by
  rcases createProduct_cases toLowerCase now docs body with ⟨_, h⟩ | ⟨key, p, hk, hc, hkey, _, _, _, himg⟩
  · exact absurd hok h
  · refine ⟨key, p, hk, hc, hkey, ?_, ?_, ?_⟩
    · rintro ⟨e, he, hek⟩
      cases hf : docs.find? (fun q => q.modelKey == key) with
      | none =>
        have := List.find?_eq_none.mp hf e he
        simp [hek] at this
      | some e' =>
        rw [hf] at himg
        have hk' : e'.modelKey = key := by simpa using List.find?_some hf
        exact ⟨e', List.mem_of_find?_eq_some hf, hk', rfl, himg⟩
    · intro hcons e he hek
      cases hf : docs.find? (fun q => q.modelKey == key) with
      | none =>
        have := List.find?_eq_none.mp hf e he
        simp [hek] at this
      | some e' =>
        rw [hf] at himg
        have hk' : e'.modelKey = key := by simpa using List.find?_some hf
        rw [himg]
        exact hcons e' (List.mem_of_find?_eq_some hf) e he (hk'.trans hek.symm)
    · intro hnone
      have hf : docs.find? (fun q => q.modelKey == key) = none := by
        rw [List.find?_eq_none]
        intro e he
        simpa using hnone e he
      rw [hf] at himg
      simp only at himg
      refine ⟨?_, ?_, ?_, ?_⟩
      · intro u hu hne
        simp [himg, hu, JsValue.orNull, JsValue.truthy, JsValue.toStr, hne]
      · intro hu
        simp [himg, hu, JsValue.orNull, JsValue.truthy]
      · intro hu
        simp [himg, hu, JsValue.orNull, JsValue.truthy]
      · intro hu
        simp [himg, hu, JsValue.orNull, JsValue.truthy]

/-- Witness for C3: a first unit `"S1"` is created on the empty collection. -/
theorem createProduct_imageUrl_witness :
    ∃ key created,
      generateModelKey asciiToLowerCase
        { serial := .val "S1", brand := .val "HP", model := .val "X", processor := .val "i5",
          ram := .val "8GB", storage := .val "256GB",
          imageUrl := .val "http://img/1" } = .ok key ∧
      createProduct asciiToLowerCase 5 []
        { serial := .val "S1", brand := .val "HP", model := .val "X", processor := .val "i5",
          ram := .val "8GB", storage := .val "256GB", imageUrl := .val "http://img/1" } =
        (⟨201, .product created⟩, [] ++ [created]) :=
  let ⟨k, c, h1, h2, _⟩ :=
    createProduct_imageUrl asciiToLowerCase 5 []
      { serial := .val "S1", brand := .val "HP", model := .val "X", processor := .val "i5",
        ram := .val "8GB", storage := .val "256GB", imageUrl := .val "http://img/1" }
      (by decide)
  ⟨k, c, h1, h2⟩

/-- C5, as stated, fails: with a stored serial `"S1"`, a request that repeats the
serial and carries an empty brand is answered with the required-fields message, not
with the duplicate-serial message. -/
theorem createProduct_duplicate_serial_empty_brand :
    createProduct asciiToLowerCase 5
      [⟨0, "S1", "HP", "X", "i5", "8GB", some "256GB", none, "Available",
        "hp-x-i5-8gb-256gb", none, 0, 0⟩]
      { serial := .val "S1", brand := .val "", model := .val "X", processor := .val "i5",
        ram := .val "8GB", storage := .val "256GB" } =
      (⟨400, .message missingFieldsMessage⟩,
        [⟨0, "S1", "HP", "X", "i5", "8GB", some "256GB", none, "Available",
          "hp-x-i5-8gb-256gb", none, 0, 0⟩]) ∧
    missingFieldsMessage ≠ duplicateSerialMessage := by
  decide

/-- C5, amended. A create whose serial is the serial of a stored document never
answers 201 and leaves the collection as it was; when serial, brand, model,
processor, ram and storage are all non-empty strings, the answer is the 400 with the
duplicate-serial message. -/
theorem createProduct_duplicate_serial (toLowerCase : String → String) (now : Nat)
    (docs : List Product) (body : Body) (s : String)
    (hs : body.serial = .val s) (hex : ∃ p ∈ docs, p.serial = s) :
    (createProduct toLowerCase now docs body).2 = docs ∧
    (createProduct toLowerCase now docs body).1.status ≠ 201 ∧
    (s ≠ "" → body.brand.truthy = true → body.model.truthy = true →
      body.processor.truthy = true → body.ram.truthy = true → body.storage.truthy = true →
      createProduct toLowerCase now docs body = (⟨400, .message duplicateSerialMessage⟩, docs)) := by
  obtain ⟨q, hq, hqs⟩ := hex
  have hany : docs.any (fun p => p.serial == body.serial.toStr) = true := by
    rw [List.any_eq_true]
    exact ⟨q, hq, by simp [hs, JsValue.toStr, hqs]⟩
  have hfail : (createProduct toLowerCase now docs body).2 = docs ∧
      (createProduct toLowerCase now docs body).1.status ≠ 201 := by
    rcases createProduct_cases toLowerCase now docs body with h | ⟨_, _, _, _, _, _, hno, _⟩
    · exact h
    · rw [hany] at hno
      exact absurd hno (by simp)
  refine ⟨hfail.1, hfail.2, ?_⟩
  intro hne hb hm hp hr hst
  obtain ⟨key, hk⟩ := generateModelKey_of_truthy toLowerCase body hb hm hp hr hst
  have hse : body.serial.truthy = true := by simp [hs, JsValue.truthy, hne]
  unfold createProduct
  rw [hk]
  simp only []
  rw [if_neg (by simp [hse, hb, hm, hp, hr, hst]), if_pos hany]

/-- Witness for C5: the serial `"S1"` is stored and sent again with all fields. -/
theorem createProduct_duplicate_serial_witness :
    (createProduct asciiToLowerCase 5
      [⟨0, "S1", "HP", "X", "i5", "8GB", some "256GB", none, "Available",
        "hp-x-i5-8gb-256gb", none, 0, 0⟩]
      { serial := .val "S1", brand := .val "Dell", model := .val "Y", processor := .val "i7",
        ram := .val "16GB", storage := .val "1TB" }).2 =
      [⟨0, "S1", "HP", "X", "i5", "8GB", some "256GB", none, "Available",
        "hp-x-i5-8gb-256gb", none, 0, 0⟩] :=
  (createProduct_duplicate_serial asciiToLowerCase 5
    [⟨0, "S1", "HP", "X", "i5", "8GB", some "256GB", none, "Available",
      "hp-x-i5-8gb-256gb", none, 0, 0⟩]
    { serial := .val "S1", brand := .val "Dell", model := .val "Y", processor := .val "i7",
      ram := .val "16GB", storage := .val "1TB" } "S1" rfl
    ⟨_, List.mem_singleton.mpr rfl, rfl⟩).1

/-- C8 at a request without `brand`: `normalize` throws before the required-fields
check is reached, and the answer is the 500 of the `catch` block, not a 400. Nothing
is stored. -/
theorem createProduct_missing_brand_is_500 :
    createProduct asciiToLowerCase 5 []
      { serial := .val "S1", model := .val "X", processor := .val "i5", ram := .val "8GB",
        storage := .val "256GB" } =
      (⟨500, .failure "Server error" .typeError⟩, []) := by
  decide

/-- C9, as stated, fails: a request without `storage` (all other required fields
present, serial new) is not stored, and a storage made of one blank, which is not
empty, gets the same key as the empty storage. -/
theorem createProduct_storage_absent_fails :
    createProduct asciiToLowerCase 5 []
      { serial := .val "S1", brand := .val "HP", model := .val "X", processor := .val "i5",
        ram := .val "8GB" } =
      (⟨500, .failure "Server error" .typeError⟩, []) ∧
    generateModelKey asciiToLowerCase
      { brand := .val "HP", model := .val "X", processor := .val "i5", ram := .val "8GB",
        storage := .val " " } =
      generateModelKey asciiToLowerCase
        { brand := .val "HP", model := .val "X", processor := .val "i5", ram := .val "8GB",
          storage := .val "" } :=
  ⟨by decide, rfl⟩

/-- C9, amended. `storage` is required on create: a request whose `storage` is
absent, `null` or empty never answers 201 and stores nothing, and with the empty
string as `storage` and the other required fields non-empty the answer is the 400
with the required-fields message. Key derivation on string attributes with an empty
storage gives the normalised brand, model, processor and ram followed by an empty
final segment (the key ends in `"-"`), which differs from the key of the same
attributes with any storage whose normalised value is non-empty. -/
theorem createProduct_requires_storage (toLowerCase : String → String) (now : Nat)
    (docs : List Product) (body : Body)
    (hlow : toLowerCase "" = "") (hs : body.storage.truthy = false) :
    (createProduct toLowerCase now docs body).2 = docs ∧
    (createProduct toLowerCase now docs body).1.status ≠ 201 ∧
    (body.storage = .val "" → body.brand.truthy = true → body.model.truthy = true →
      body.processor.truthy = true → body.ram.truthy = true →
      createProduct toLowerCase now docs body = (⟨400, .message missingFieldsMessage⟩, docs)) ∧
    (∀ b m p r : String,
      generateModelKey toLowerCase
        { body with brand := .val b, model := .val m, processor := .val p, ram := .val r,
                    storage := .val "" } =
        .ok (removeWhiteSpace (toLowerCase b) ++ "-" ++ removeWhiteSpace (toLowerCase m) ++
          "-" ++ removeWhiteSpace (toLowerCase p) ++ "-" ++ removeWhiteSpace (toLowerCase r) ++
          "-")) ∧
    (∀ b m p r s : String, removeWhiteSpace (toLowerCase s) ≠ "" →
      generateModelKey toLowerCase
        { body with brand := .val b, model := .val m, processor := .val p, ram := .val r,
                    storage := .val "" } ≠
      generateModelKey toLowerCase
        { body with brand := .val b, model := .val m, processor := .val p, ram := .val r,
                    storage := .val s }) := by
  have hempty : removeWhiteSpace (toLowerCase "") = "" := by rw [hlow]; rfl
  have hfail : (createProduct toLowerCase now docs body).2 = docs ∧
      (createProduct toLowerCase now docs body).1.status ≠ 201 := by
    rcases createProduct_cases toLowerCase now docs body with h | ⟨_, _, _, _, _, _, _, hst, _⟩
    · exact h
    · rw [hs] at hst
      exact absurd hst (by simp)
  refine ⟨hfail.1, hfail.2, ?_, ?_, ?_⟩
  · intro hst hb hm hp hr
    obtain ⟨b, hb, _⟩ := truthy_val _ hb
    obtain ⟨m, hm, _⟩ := truthy_val _ hm
    obtain ⟨p, hp, _⟩ := truthy_val _ hp
    obtain ⟨r, hr, _⟩ := truthy_val _ hr
    have hk : generateModelKey toLowerCase body =
        .ok (String.intercalate "-"
          [trim (removeWhiteSpace (toLowerCase b)), trim (removeWhiteSpace (toLowerCase m)),
           trim (removeWhiteSpace (toLowerCase p)), trim (removeWhiteSpace (toLowerCase r)),
           trim (removeWhiteSpace (toLowerCase ""))]) := by
      simp only [generateModelKey, normalize, hb, hm, hp, hr, hst]
      rfl
    unfold createProduct
    rw [hk]
    simp only []
    rw [if_pos (by simp [hs])]
  · intro b m p r
    rw [generateModelKey_val, hempty, String.append_empty]
  · intro b m p r s hne h
    rw [generateModelKey_val, generateModelKey_val, hempty] at h
    have h' := string_append_left_cancel _ _ _ (Except.ok.inj h)
    exact hne h'.symm

/-- Witness for C9: a request that carries the empty string as `storage`. -/
theorem createProduct_requires_storage_witness :
    (createProduct asciiToLowerCase 5 []
      { serial := .val "S1", brand := .val "HP", model := .val "X", processor := .val "i5",
        ram := .val "8GB", storage := .val "" }).2 = [] :=
  (createProduct_requires_storage asciiToLowerCase 5 []
    { serial := .val "S1", brand := .val "HP", model := .val "X", processor := .val "i5",
      ram := .val "8GB", storage := .val "" } rfl rfl).1

/-- C4. Group image consistency holds in every collection reached from the empty
one by any sequence of create, update (either branch) and delete requests, served
at any times: any two
documents with the same `modelKey` have the same `imageUrl`. -/
theorem group_image_consistent_reachable (toLowerCase : String → String)
    (ops : List (Nat × Op)) :
    GroupImageConsistent (run toLowerCase [] ops) :=
  run_consistent toLowerCase ops [] (fun _ h => absurd h (List.not_mem_nil _))

/-- C6. Serial uniqueness is kept by every single request: in a collection whose
identifiers are pairwise distinct (the store's primary key) and whose serials are
pairwise distinct, the collection after a create, an update (one that changes the
serial, one that carries an empty serial, one that takes the image branch) or a
delete, answered with success or failure, again has pairwise distinct serials, and
pairwise distinct identifiers. -/
theorem step_serials_unique (toLowerCase : String → String) (now : Nat) (docs : List Product) (op : Op)
    (hid : IdsUnique docs) (hs : SerialsUnique docs) :
    SerialsUnique (step toLowerCase now docs op).2 ∧ IdsUnique (step toLowerCase now docs op).2 := by
  cases op with
  | create body =>
    exact ⟨createProduct_serials_unique toLowerCase now docs body hs,
      createProduct_ids_unique toLowerCase now docs body hid⟩
  | update id body =>
    exact ⟨updateProduct_serials_unique now docs id body hid hs,
      updateProduct_ids_unique now docs id body hid⟩
  | delete id =>
    exact ⟨deleteProduct_serials_unique docs id hs, deleteProduct_ids_unique docs id hid⟩

/-- Witness for C6: the serial of the first of two units is changed to `"S3"`. -/
theorem step_serials_unique_witness :
    SerialsUnique (step asciiToLowerCase 5
      [⟨0, "S1", "HP", "X", "i5", "8GB", some "256GB", none, "Available",
        "hp-x-i5-8gb-256gb", none, 0, 0⟩,
       ⟨1, "S2", "HP", "X", "i5", "8GB", some "256GB", none, "Available",
        "hp-x-i5-8gb-256gb", none, 0, 0⟩]
      (.update 0 { serial := .val "S3" })).2 :=
  (step_serials_unique asciiToLowerCase 5
    [⟨0, "S1", "HP", "X", "i5", "8GB", some "256GB", none, "Available",
      "hp-x-i5-8gb-256gb", none, 0, 0⟩,
     ⟨1, "S2", "HP", "X", "i5", "8GB", some "256GB", none, "Available",
      "hp-x-i5-8gb-256gb", none, 0, 0⟩]
    (.update 0 { serial := .val "S3" })
    (by unfold IdsUnique; decide) (by unfold SerialsUnique; decide)).1

end CictechInventory
